import Mathlib

/-!
# A verification development for the redis-whistle server

This file embeds the RESP protocol codec (`redis_protocol.go`) and the
keyspace engine (`database.go` / command layer) of the redis-whistle
repository as executable Lean definitions, and proves (or refutes)
the specification claims about them.

Conventions of the embedding:
* Go byte streams are `List Char` (`Bytes`); every byte of interest is ASCII,
  so `Char` stands for a byte.
* A `bufio.Reader` is modelled by explicit state passing: a decoding function
  consumes a prefix of the byte list and returns the remainder.
* Go's `int` is modelled as `Int`; where the source can overflow we wrap
  explicitly at 64 bits (`wrap64`).
* Fallible Go functions returning `(Value, error)` become the `DOut` sum;
  `DOut.fail` stands for "returns a non-nil error", `DOut.panic` stands for a
  Go runtime panic (out-of-range slice index, `make` with negative length).
* The recursion `DecodeRESP -> decodeArray -> DecodeRESP` is guarded by a
  `fuel` parameter bounding the nesting depth; the Go code has no such
  parameter, but its recursion depth is bounded by the stream length, so a
  caller passing `length + 1` fuel observes exactly the Go behaviour.
-/

namespace RedisWhistle

abbrev Bytes := List Char

def crlf : Bytes := ['\r', '\n']

/-- The decoded `Value` struct of `redis_protocol.go`: the `typ` tag together
with the `bytes`/`array` payloads is a sum; exactly the three decodable tags
appear (`+`, `$`, `*`). -/
inductive RValue : Type where
  | simple (s : Bytes)
  | bulk (b : Bytes)
  | arr (a : List RValue)
deriving Repr

/-- Outcome of a decoding function: `ok` = `(value, nil)` plus the unread
remainder of the stream, `fail` = `(Value{}, err)` with a non-nil error,
`panic` = a Go runtime panic. -/
inductive DOut : Type where
  | ok (v : RValue) (rest : Bytes)
  | fail
  | panic
deriving Repr

/-! ## Decimal digits: `strconv.Itoa` / `strconv.Atoi` -/

/-- One decimal digit as a character. -/
def digitChar : Nat → Char
  | 0 => '0' | 1 => '1' | 2 => '2' | 3 => '3' | 4 => '4'
  | 5 => '5' | 6 => '6' | 7 => '7' | 8 => '8' | 9 => '9'
  | _ => '*'

/-- Decimal digits, most significant first; the fuel only bounds the digit
count (any `fuel > n` is exact), keeping the recursion structural. -/
def natDigitsAux : Nat → Nat → Bytes
  | 0, _ => []
  | fuel + 1, n =>
    if n < 10 then [digitChar n]
    else natDigitsAux fuel (n / 10) ++ [digitChar (n % 10)]

/-- Decimal digits of a natural number, most significant first
(`strconv.Itoa` on a non-negative value). -/
def natDigits (n : Nat) : Bytes := natDigitsAux (n + 1) n

/-- `strconv.Itoa`. -/
def itoa (i : Int) : Bytes :=
  if i < 0 then '-' :: natDigits (-i).toNat else natDigits i.toNat

/-- Value of one ASCII digit, `none` on a non-digit byte. -/
def digToNat (c : Char) : Option Nat :=
  if '0' ≤ c ∧ c ≤ '9' then some (c.toNat - 48) else none

/-- Left-to-right accumulation of a decimal digit string. -/
def parseDigitsAux (acc : Nat) : Bytes → Option Nat
  | [] => some acc
  | c :: cs =>
    match digToNat c with
    | none => none
    | some d => parseDigitsAux (acc * 10 + d) cs

/-- Digits of a non-empty all-digit string; `none` otherwise. -/
def parseDigits : Bytes → Option Nat
  | [] => none
  | l => parseDigitsAux 0 l

/-- Go's `int` is 64 bits wide on the targets in use: `Atoi` reports a range
error outside `[-2^63, 2^63 - 1]`. -/
def atoiRange (v : Int) : Option Int :=
  if -(2 ^ 63) ≤ v ∧ v ≤ 2 ^ 63 - 1 then some v else none

/-- `strconv.Atoi`: optional sign, one or more decimal digits, range-checked. -/
def atoi (l : Bytes) : Option Int :=
  match l with
  | [] => none
  | c :: rest =>
    if c = '-' then (parseDigits rest).bind fun n => atoiRange (-(n : Int))
    else if c = '+' then (parseDigits rest).bind fun n => atoiRange (n : Int)
    else (parseDigits (c :: rest)).bind fun n => atoiRange (n : Int)

/-! ## `readUntilCRLF` -/

/-- `bufio.Reader.ReadBytes('\n')`: the bytes up to and including the first
line feed, plus the remainder; `none` when the stream ends first (the Go
call returns an error and `readUntilCRLF` propagates it). -/
def splitAtNewline : Bytes → Option (Bytes × Bytes)
  | [] => none
  | c :: cs =>
    if c = '\n' then some ([c], cs)
    else (splitAtNewline cs).map fun p => (c :: p.1, p.2)

/-- The Go loop condition `len(readBytes) >= 2 && readBytes[len(readBytes)-2] == '\r'`:
the second-to-last accumulated byte is a carriage return. -/
def secondToLastIsCR (l : Bytes) : Bool :=
  match l.reverse with
  | _ :: '\r' :: _ => true
  | _ => false

/-- The accumulation loop of `readUntilCRLF`; fuel bounds the number of
`ReadBytes` calls (each consumes at least one byte, so `length + 1` is
always enough). -/
def readCRLFAux : Nat → Bytes → Bytes → Option (Bytes × Bytes)
  | 0, _, _ => none
  | fuel + 1, s, acc =>
    match splitAtNewline s with
    | none => none
    | some (line, rest) =>
      let acc2 := acc ++ line
      if secondToLastIsCR acc2 then some (acc2.dropLast.dropLast, rest)
      else readCRLFAux fuel rest acc2

/-- `readUntilCRLF`: bytes before the first CRLF pair, and the remainder
after it. -/
def readUntilCRLF (s : Bytes) : Option (Bytes × Bytes) :=
  readCRLFAux (s.length + 1) s []

/-! ## The decoders -/

/-- `decodeSimpleString`. -/
def decodeSimpleString (s : Bytes) : DOut :=
  match readUntilCRLF s with
  | none => .fail
  | some (b, rest) => .ok (.simple b) rest

/-- `decodeBulkString`. After parsing the declared length `count`, the Go code
runs `readBytes := make([]byte, count+2)`, `io.ReadFull(stream, readBytes)`,
and returns `readBytes[:count]`. Case analysis on `count`:
* `count ≥ 0`: needs `count+2` bytes, error if fewer remain, else succeeds
  with the first `count` of them (the trailing two are consumed unchecked);
* `count = -1`: `make` builds a 1-byte buffer; `ReadFull` errors at end of
  stream, otherwise it fills the buffer and `readBytes[:-1]` panics;
* `count = -2`: `make` builds an empty buffer, `ReadFull` trivially succeeds,
  and `readBytes[:-2]` panics;
* `count ≤ -3`: `make` with a negative length panics. -/
def decodeBulkString (s : Bytes) : DOut :=
  match readUntilCRLF s with
  | none => .fail
  | some (lenB, rest) =>
    match atoi lenB with
    | none => .fail
    | some count =>
      if 0 ≤ count then
        if rest.length < count.toNat + 2 then .fail
        else .ok (.bulk (rest.take count.toNat)) (rest.drop (count.toNat + 2))
      else if count = -1 then
        if rest.length < 1 then .fail else .panic
      else .panic

/-- The element loop of `decodeArray` (`for i := 1; i <= count; i++`), with
`array = append(array, value)` accumulation; a non-positive count runs zero
iterations. `dec` is the recursive call to `DecodeRESP`. -/
def decodeArrLoop (dec : Bytes → DOut) : Nat → Bytes → List RValue → DOut
  | 0, s, acc => .ok (.arr acc) s
  | n + 1, s, acc =>
    match dec s with
    | .ok v s' => decodeArrLoop dec n s' (acc ++ [v])
    | .fail => .fail
    | .panic => .panic

/-- `DecodeRESP`, dispatching on the marker byte. An empty stream is the
`ReadByte` error path (`fail`); the `*` branch is `decodeArray` inlined,
recursing with one unit of fuel less per nesting level. -/
def decodeRESP : Nat → Bytes → DOut
  | 0, _ => .fail
  | _ + 1, [] => .fail
  | fuel + 1, c :: s =>
    if c = '+' then decodeSimpleString s
    else if c = '$' then decodeBulkString s
    else if c = '*' then
      match readUntilCRLF s with
      | none => .fail
      | some (cntB, rest) =>
        match atoi cntB with
        | none => .fail
        | some count => decodeArrLoop (decodeRESP fuel) count.toNat rest []
    else .fail

/-- Top-level decoding of one unit: the Go recursion depth never exceeds the
stream length, so this fuel choice is exact. -/
def DecodeRESP (s : Bytes) : DOut :=
  decodeRESP (s.length + 1) s

/-! ## The reply encoders -/

/-- `returnSimpleString`. -/
def returnSimpleString (s : Bytes) : Bytes := '+' :: s ++ crlf

/-- `returnNullBulkString`. -/
def returnNullBulkString : Bytes := '$' :: '-' :: '1' :: crlf

/-- `returnBulkString`. -/
def returnBulkString (s : Bytes) : Bytes :=
  '$' :: natDigits s.length ++ crlf ++ s ++ crlf

/-- `returnInteger`. -/
def returnInteger (i : Int) : Bytes := ':' :: itoa i ++ crlf

/-- The body built by `returnArray`'s loop: each element is a bulk string,
except that the empty string is sent as the null bulk form. -/
def arrayElemsEnc (a : List Bytes) : Bytes :=
  (a.map fun v => if v = [] then returnNullBulkString else returnBulkString v).flatten

/-- `returnArray`. -/
def returnArray (a : List Bytes) : Bytes :=
  '*' :: natDigits a.length ++ crlf ++ arrayElemsEnc a

/-! ## The encoder's input domain

The `return*` functions are the only reply encoders; a reply value in the
sense of the specification's data model (§3) is whichever of them the
command layer invokes, with its argument. -/

/-- A protocol reply value as fed to the encoder: Status, Integer,
BulkString (with the distinguished null form), or an Array whose elements
are bulk strings or the null form (`returnArray` encodes the empty string
as the null form). -/
inductive Reply : Type where
  | status (s : Bytes)
  | integer (i : Int)
  | bulk (s : Bytes)
  | nullBulk
  | array (es : List Bytes)

/-- Encode a reply with the `return*` function of its variant. -/
def encodeReply : Reply → Bytes
  | .status s => returnSimpleString s
  | .integer i => returnInteger i
  | .bulk s => returnBulkString s
  | .nullBulk => returnNullBulkString
  | .array es => returnArray es

/-- The decoded form a reply is expected to round-trip to. The Integer and
Null variants have no decoded counterpart at all (no decoder branch
produces them); they are mapped to an arbitrary default and excluded by
`ReplyOk`. -/
def replyToValue : Reply → RValue
  | .status s => .simple s
  | .bulk s => .bulk s
  | .array es => .arr (es.map .bulk)
  | .integer _ => .simple []
  | .nullBulk => .simple []

/-- The replies that actually survive the decode-encode round trip:
statuses without an embedded line feed, non-null bulk strings, and arrays
of non-empty bulk strings (the length bounds are automatic in Go, where a
string length is an `int`). -/
def ReplyOk : Reply → Prop
  | .status s => '\n' ∉ s
  | .integer _ => False
  | .bulk s => s.length < 2 ^ 63
  | .nullBulk => False
  | .array es => es.length < 2 ^ 63 ∧ ∀ e ∈ es, e ≠ [] ∧ e.length < 2 ^ 63

/-! # The keyspace engine (`database.go`)

`time.Time` is modelled as an `Int` (an absolute instant in milliseconds);
the zero value `time.Time{}` is the integer `0`, and `time.Now()` becomes
an explicit `now` parameter threaded through the operations.
Go maps become total functions into `Option`; where a Go method mutates
its receiver, the model returns the updated `Database`. -/

/-- Update of a map at one key (`m[k] = v`; `delete(m, k)` for `none`). -/
def mapSet {α : Type} (m : String → Option α) (k : String) (v : Option α) :
    String → Option α :=
  fun k' => if k' = k then v else m k'

/-- The two maps of `Database`. The unexported fields (`id`, `stopSignal`,
`mutex`) play no role in any claim and are omitted; the mutex discipline is
outside a sequential model. -/
structure Database where
  StringKeys : String → Option String
  ExpireKeys : String → Option Int

/-- `checkAndRemoveExpiredKey`: `false` when the key has no expiry entry;
when the entry is strictly in the past (`time.Now().After(expire)`), the
key is deleted from both maps and the result is `true`. -/
def Database.checkAndRemoveExpiredKey (db : Database) (now : Int) (key : String) :
    Bool × Database :=
  match db.ExpireKeys key with
  | none => (false, db)
  | some expire =>
    if now > expire then
      (true, { StringKeys := mapSet db.StringKeys key none
             , ExpireKeys := mapSet db.ExpireKeys key none })
    else (false, db)

/-- `GetExpire`: the stored expiry instant, or the zero `time.Time` when
there is no entry. -/
def Database.GetExpire (db : Database) (key : String) : Int :=
  match db.ExpireKeys key with
  | none => 0
  | some expire => expire

/-- `Get`: the empty string for a missing key; lazily purges an expired key
(returning the empty string); otherwise the stored value. -/
def Database.Get (db : Database) (now : Int) (key : String) : String × Database :=
  match db.StringKeys key with
  | none => ("", db)
  | some storage =>
    let r := db.checkAndRemoveExpiredKey now key
    if r.1 then ("", r.2) else (storage, r.2)

/-- `Set`: unconditional overwrite of the value map only. -/
def Database.Set (db : Database) (key value : String) : Database :=
  { db with StringKeys := mapSet db.StringKeys key (some value) }

/-- `Setpx`: `Set`, then an expiry entry at `now + milliseconds`. -/
def Database.Setpx (db : Database) (now : Int) (key : String) (milliseconds : Int)
    (value : String) : Database :=
  let db1 := db.Set key value
  { db1 with ExpireKeys := mapSet db1.ExpireKeys key (some (now + milliseconds)) }

/-- `Del`: for each key a `Get` (with its lazy-expiration side effect),
then — when the value came back non-empty — deletion from the value map
only, counting the deletions. -/
def Database.Del (db : Database) (now : Int) (keys : List String) : Nat × Database :=
  match keys with
  | [] => (0, db)
  | key :: ks =>
    let r := db.Get now key
    if r.1 ≠ "" then
      let db2 := { r.2 with StringKeys := mapSet r.2.StringKeys key none }
      let t := Database.Del db2 now ks
      (t.1 + 1, t.2)
    else
      Database.Del r.2 now ks

/-- `Exists`: counts the keys whose `Get` is non-empty. -/
def Database.Exists (db : Database) (now : Int) (keys : List String) : Nat × Database :=
  match keys with
  | [] => (0, db)
  | key :: ks =>
    let r := db.Get now key
    let t := Database.Exists r.2 now ks
    (if r.1 ≠ "" then t.1 + 1 else t.1, t.2)

/-- Go's 64-bit `int` wrap-around for the in-place arithmetic of the
increment/decrement family. -/
def wrap64 (i : Int) : Int := (i + 2 ^ 63).emod (2 ^ 64) - 2 ^ 63

/-- `strconv.Itoa` at `String` type. -/
def itoaS (i : Int) : String := ⟨itoa i⟩

/-- `strconv.Atoi` at `String` type. -/
def atoiS (s : String) : Option Int := atoi s.toList

/-- `Incr`: missing key is created as "1"; an unparseable stored value
yields the plain integer `0` (no error channel exists — the function's
return type is `int`). -/
def Database.Incr (db : Database) (now : Int) (key : String) : Int × Database :=
  let r := db.Get now key
  if r.1 = "" then (1, r.2.Set key "1")
  else
    let c := r.2.checkAndRemoveExpiredKey now key
    if c.1 then (0, c.2)
    else
      match atoiS r.1 with
      | none => (0, c.2)
      | some value =>
        let value2 := wrap64 (value + 1)
        (value2, c.2.Set key (itoaS value2))

/-- `IncrBy`. -/
def Database.IncrBy (db : Database) (now : Int) (key : String) (increment : Int) :
    Int × Database :=
  let r := db.Get now key
  if r.1 = "" then (increment, r.2.Set key (itoaS increment))
  else
    let c := r.2.checkAndRemoveExpiredKey now key
    if c.1 then (0, c.2)
    else
      match atoiS r.1 with
      | none => (0, c.2)
      | some value =>
        let value2 := wrap64 (value + increment)
        (value2, c.2.Set key (itoaS value2))

/-- `Decr`. -/
def Database.Decr (db : Database) (now : Int) (key : String) : Int × Database :=
  let r := db.Get now key
  if r.1 = "" then (-1, r.2.Set key "-1")
  else
    let c := r.2.checkAndRemoveExpiredKey now key
    if c.1 then (0, c.2)
    else
      match atoiS r.1 with
      | none => (0, c.2)
      | some value =>
        let value2 := wrap64 (value - 1)
        (value2, c.2.Set key (itoaS value2))

/-- `DecrBy` (the `-decrement` on the fresh-key path is Go integer
negation, which wraps at the 64-bit boundary). -/
def Database.DecrBy (db : Database) (now : Int) (key : String) (decrement : Int) :
    Int × Database :=
  let r := db.Get now key
  if r.1 = "" then (wrap64 (-decrement), r.2.Set key (itoaS (wrap64 (-decrement))))
  else
    let c := r.2.checkAndRemoveExpiredKey now key
    if c.1 then (0, c.2)
    else
      match atoiS r.1 with
      | none => (0, c.2)
      | some value =>
        let value2 := wrap64 (value - decrement)
        (value2, c.2.Set key (itoaS value2))

/-- `TTL`: `-2` when `Get` comes back empty (missing, expired, or holding
the empty string), `-1` when there is no expiry entry, otherwise
`int(time.Until(expire).Seconds())` — seconds truncated toward zero. -/
def Database.TTL (db : Database) (now : Int) (key : String) : Int × Database :=
  let r := db.Get now key
  if r.1 = "" then (-2, r.2)
  else
    let expire := r.2.GetExpire key
    if expire = 0 then (-1, r.2)
    else (Int.tdiv (expire - now) 1000, r.2)

/-- The first loop of `MSetNX` over the keys at even positions: does any
listed key currently resolve to a non-empty value? Each probe is a `Get`,
with its lazy-expiration side effect; the loop stops at the first hit. -/
def msetnxCheck (db : Database) (now : Int) (pairs : List (String × String)) :
    Bool × Database :=
  match pairs with
  | [] => (false, db)
  | (key, _) :: rest =>
    let r := db.Get now key
    if r.1 ≠ "" then (true, r.2)
    else msetnxCheck r.2 now rest

/-- The second loop of `MSetNX`: `Set` every pair in order. -/
def msetnxInstall (db : Database) (pairs : List (String × String)) : Database :=
  match pairs with
  | [] => db
  | (key, value) :: rest => msetnxInstall (db.Set key value) rest

/-- `MSetNX`, on the (key, value) pairs of its even-length argument list:
returns `false` installing nothing when some listed key exists, otherwise
installs every pair and returns `true`. -/
def Database.MSetNX (db : Database) (now : Int) (pairs : List (String × String)) :
    Bool × Database :=
  let c := msetnxCheck db now pairs
  if c.1 then (false, c.2) else (true, msetnxInstall c.2 pairs)

/-! ## Persistence (`Save` / `Load`) -/

/-- A snapshot file's decoded contents: the two exported maps. -/
structure Snapshot where
  strings : String → Option String
  expires : String → Option Int

/-- `Save` gob-encodes the two exported maps; it never mutates the
in-memory state (a file-creation or encoding error is only logged). -/
def Database.Save (db : Database) : Snapshot :=
  ⟨db.StringKeys, db.ExpireKeys⟩

/-- `Load`. `file = none` models an `os.Open` failure (the method logs the
error and returns, leaving the receiver untouched). On success,
`gob.Decoder.Decode` decodes into the existing receiver, and for a map
field gob does not clear a non-nil destination map: `decodeMap` allocates
only when the map is nil and otherwise stores each decoded entry into the
existing map. `NewDatabase` creates both maps non-nil, so a load writes
the snapshot's entries on top of the current ones — a per-key overwrite,
i.e. a merge, not a replacement. -/
def Database.Load (db : Database) (file : Option Snapshot) : Database :=
  match file with
  | none => db
  | some snap =>
    { StringKeys := fun k =>
        match snap.strings k with
        | some v => some v
        | none => db.StringKeys k
    , ExpireKeys := fun k =>
        match snap.expires k with
        | some t => some t
        | none => db.ExpireKeys k }

/-! ## The command layer

The command handlers build replies by string concatenation; these are the
same `return*` encoders as above, at `String` type. -/

/-- `returnError` at `String` type. -/
def returnErrorS (s : String) : String := "-ERR " ++ s ++ "\r\n"

/-- `returnSimpleString` at `String` type. -/
def returnSimpleStringS (s : String) : String := "+" ++ s ++ "\r\n"

/-- `returnNullBulkString` at `String` type. -/
def returnNullBulkStringS : String := "$-1\r\n"

/-- `returnBulkString` at `String` type. -/
def returnBulkStringS (s : String) : String :=
  "$" ++ itoaS s.length ++ "\r\n" ++ s ++ "\r\n"

/-- `returnInteger` at `String` type. -/
def returnIntegerS (i : Int) : String := ":" ++ itoaS i ++ "\r\n"

/-- `returnWrongNumberOfArgumentsError`. -/
def returnWrongNumberOfArgumentsError (command : String) : String :=
  returnErrorS ("wrong number of arguments for '" ++ command ++ "' command")

/-- `checkNumberOfArguments`: `len(args) >= expected`. -/
def checkNumberOfArguments (args : List String) (expected : Nat) : Bool :=
  args.length ≥ expected

/-- `echoCommand` evaluates `returnBulkString(args[0])` with no arity
check: `args[0]` on an empty argument slice is an index-out-of-range
runtime panic, modelled by `none`. -/
def echoCommand (args : List String) : Option String :=
  (args.get? 0).map returnBulkStringS

/-- `getCommand`. -/
def getCommand (now : Int) (args : List String) (db : Database) : String × Database :=
  if checkNumberOfArguments args 1 then
    let r := db.Get now (args.getD 0 "")
    if r.1 = "" then (returnNullBulkStringS, r.2)
    else (returnBulkStringS r.1, r.2)
  else (returnWrongNumberOfArgumentsError "GET", db)

/-- `incrCommand`. -/
def incrCommand (now : Int) (args : List String) (db : Database) : String × Database :=
  if checkNumberOfArguments args 1 then
    let r := db.Incr now (args.getD 0 "")
    (returnIntegerS r.1, r.2)
  else (returnWrongNumberOfArgumentsError "INCR", db)

/-- `saveCommand`: ignores its arguments, writes `db.Save` to disk (where
failure is only logged) and always replies OK; the in-memory maps are
untouched in every case. -/
def saveCommand (_args : List String) (db : Database) : String × Database :=
  (returnSimpleStringS "OK", db)

/-- `loadCommand`: requires at least one argument (the file name; the
resolved file contents, or `none` for an open/decode failure, are the
`file` parameter) and replies OK no matter how the load went. -/
def loadCommand (args : List String) (file : Option Snapshot) (db : Database) :
    String × Database :=
  if checkNumberOfArguments args 1 then
    (returnSimpleStringS "OK", db.Load file)
  else (returnWrongNumberOfArgumentsError "LOAD", db)

/-! ## Digit lemmas -/

lemma digitChar_ne_newline (d : Nat) : digitChar d ≠ '\n' := by
  unfold digitChar; split <;> decide

lemma digitChar_ne_minus (d : Nat) : digitChar d ≠ '-' := by
  unfold digitChar; split <;> decide

lemma digitChar_ne_plus (d : Nat) : digitChar d ≠ '+' := by
  unfold digitChar; split <;> decide

lemma digToNat_digitChar (d : Nat) (h : d < 10) : digToNat (digitChar d) = some d := by
  interval_cases d <;> decide

lemma mem_natDigitsAux (fuel n : Nat) (c : Char) (hc : c ∈ natDigitsAux fuel n) :
    ∃ d, d < 10 ∧ c = digitChar d := by
  induction fuel generalizing n with
  | zero => simp [natDigitsAux] at hc
  | succ fuel ih =>
    rw [natDigitsAux] at hc
    by_cases h : n < 10
    · rw [if_pos h] at hc
      simp at hc
      exact ⟨n, h, hc⟩
    · rw [if_neg h] at hc
      rcases List.mem_append.mp hc with h1 | h1
      · exact ih _ h1
      · simp at h1
        exact ⟨n % 10, Nat.mod_lt _ (by omega), h1⟩

lemma newline_not_mem_natDigits (n : Nat) : '\n' ∉ natDigits n := by
  intro hc
  obtain ⟨d, _, hd⟩ := mem_natDigitsAux _ _ _ hc
  exact digitChar_ne_newline d hd.symm

lemma parseDigitsAux_append (l1 l2 : Bytes) (acc : Nat) :
    parseDigitsAux acc (l1 ++ l2) =
      (parseDigitsAux acc l1).bind fun a => parseDigitsAux a l2 := by
  induction l1 generalizing acc with
  | nil => simp [parseDigitsAux]
  | cons c cs ih =>
    simp only [List.cons_append, parseDigitsAux]
    cases digToNat c with
    | none => simp
    | some d => simp [ih]

lemma parseDigitsAux_natDigitsAux (fuel : Nat) :
    ∀ n acc, n < fuel →
      parseDigitsAux acc (natDigitsAux fuel n) =
        some (acc * 10 ^ (natDigitsAux fuel n).length + n) := by
  induction fuel with
  | zero => omega
  | succ fuel ih =>
    intro n acc hn
    rw [natDigitsAux]
    by_cases h : n < 10
    · rw [if_pos h]
      simp [parseDigitsAux, digToNat_digitChar n h]
    · rw [if_neg h]
      have hdiv : n / 10 < n := Nat.div_lt_self (by omega) (by omega)
      have hlt : n / 10 < fuel := by omega
      rw [parseDigitsAux_append, ih _ acc hlt]
      simp only [Option.bind_some, parseDigitsAux, digToNat_digitChar (n % 10) (Nat.mod_lt _ (by omega))]
      simp [List.length_append, pow_succ]
      ring_nf
      omega

lemma natDigitsAux_ne_nil (fuel n : Nat) (h : 0 < fuel) : natDigitsAux fuel n ≠ [] := by
  cases fuel with
  | zero => omega
  | succ fuel =>
    rw [natDigitsAux]
    by_cases h10 : n < 10
    · simp [h10]
    · simp [h10]

lemma parseDigits_natDigits (n : Nat) : parseDigits (natDigits n) = some n := by
  have hne := natDigitsAux_ne_nil (n + 1) n (by omega)
  have hparse := parseDigitsAux_natDigitsAux (n + 1) n 0 (by omega)
  unfold natDigits
  cases hd : natDigitsAux (n + 1) n with
  | nil => exact absurd hd hne
  | cons c cs =>
    rw [hd] at hparse
    simpa [parseDigits] using hparse

lemma atoi_natDigits (n : Nat) (h : n < 2 ^ 63) : atoi (natDigits n) = some (n : Int) := by
  have hne := natDigitsAux_ne_nil (n + 1) n (by omega)
  cases hd : natDigits n with
  | nil => exact absurd hd hne
  | cons c cs =>
    have hc : c ∈ natDigits n := by rw [hd]; exact List.mem_cons_self _ _
    obtain ⟨d, _, hcd⟩ := mem_natDigitsAux _ _ _ hc
    have hparse := parseDigits_natDigits n
    rw [hd] at hparse
    rw [atoi, if_neg (hcd ▸ digitChar_ne_minus d), if_neg (hcd ▸ digitChar_ne_plus d),
      hparse]
    show atoiRange (n : Int) = some (n : Int)
    have h0 : (0 : Int) ≤ (n : Int) := Int.ofNat_nonneg n
    have h1 : (n : Int) < 2 ^ 63 := by exact_mod_cast h
    rw [atoiRange, if_pos ⟨by omega, by omega⟩]

/-! ## `readUntilCRLF` on an encoded line -/

lemma splitAtNewline_append (l r : Bytes) (h : '\n' ∉ l) :
    splitAtNewline (l ++ '\n' :: r) = some (l ++ ['\n'], r) := by
  induction l with
  | nil => simp [splitAtNewline]
  | cons c cs ih =>
    have hc : c ≠ '\n' := fun hc => h (hc ▸ List.mem_cons_self _ _)
    have hcs : '\n' ∉ cs := fun hm => h (List.mem_cons_of_mem _ hm)
    simp only [List.cons_append, splitAtNewline, if_neg hc, List.append_eq, ih hcs,
      Option.map_some']

lemma readUntilCRLF_encode (l r : Bytes) (h : '\n' ∉ l) :
    readUntilCRLF (l ++ '\r' :: '\n' :: r) = some (l, r) := by
  have hsplit : splitAtNewline (l ++ '\r' :: '\n' :: r) = some ((l ++ ['\r']) ++ ['\n'], r) := by
    have : l ++ '\r' :: '\n' :: r = (l ++ ['\r']) ++ '\n' :: r := by simp
    rw [this]
    refine splitAtNewline_append _ _ ?_
    intro hm
    rcases List.mem_append.mp hm with h1 | h1
    · exact h h1
    · simp at h1
  rw [readUntilCRLF, readCRLFAux, hsplit]
  have hacc : ([] : Bytes) ++ ((l ++ ['\r']) ++ ['\n']) = l ++ ['\r', '\n'] := by simp
  have hcr : secondToLastIsCR (l ++ ['\r', '\n']) = true := by
    have : l ++ ['\r', '\n'] = (l ++ ['\r']) ++ ['\n'] := by simp
    rw [secondToLastIsCR, this, List.reverse_append]
    simp [List.reverse_append]
  simp only [hacc, hcr, if_true]
  have hdrop : (l ++ ['\r', '\n']).dropLast.dropLast = l := by
    have h1 : l ++ ['\r', '\n'] = (l ++ ['\r']) ++ ['\n'] := by simp
    rw [h1, List.dropLast_concat, List.dropLast_concat]
  rw [hdrop]

/-! ## Decode-encode round trip -/

lemma decodeSimpleString_encode (s rest : Bytes) (h : '\n' ∉ s) :
    decodeSimpleString (s ++ '\r' :: '\n' :: rest) = .ok (.simple s) rest := by
  simp [decodeSimpleString, readUntilCRLF_encode s rest h]

lemma decodeBulkString_encode (s rest : Bytes) (h : s.length < 2 ^ 63) :
    decodeBulkString (natDigits s.length ++ '\r' :: '\n' :: (s ++ '\r' :: '\n' :: rest))
      = .ok (.bulk s) rest := by
  have hlen : (s ++ '\r' :: '\n' :: rest).length = s.length + 2 + rest.length := by
    simp; omega
  have htake : (s ++ '\r' :: '\n' :: rest).take s.length = s := by
    exact List.take_left s ('\r' :: '\n' :: rest)
  have hdrop : (s ++ '\r' :: '\n' :: rest).drop (s.length + 2) = rest := by
    have h1 : s ++ '\r' :: '\n' :: rest = (s ++ ['\r', '\n']) ++ rest := by simp
    have h2 : (s ++ ['\r', '\n']).length = s.length + 2 := by simp
    rw [h1, ← h2, List.drop_left]
  simp [decodeBulkString, readUntilCRLF_encode _ _ (newline_not_mem_natDigits s.length),
    atoi_natDigits _ h, hlen, htake, hdrop, Int.ofNat_nonneg]

lemma decodeArrLoop_encode (fuel : Nat) (es : List Bytes) (rest : Bytes) (acc : List RValue)
    (h : ∀ e ∈ es, e ≠ [] ∧ e.length < 2 ^ 63) :
    decodeArrLoop (decodeRESP (fuel + 1)) es.length (arrayElemsEnc es ++ rest) acc
      = .ok (.arr (acc ++ es.map .bulk)) rest := by
  induction es generalizing rest acc with
  | nil => simp [arrayElemsEnc, decodeArrLoop]
  | cons e es ih =>
    have he := h e (List.mem_cons_self _ _)
    have hes : ∀ x ∈ es, x ≠ [] ∧ x.length < 2 ^ 63 :=
      fun x hx => h x (List.mem_cons_of_mem _ hx)
    have henc : arrayElemsEnc (e :: es) ++ rest
        = '$' :: (natDigits e.length ++ '\r' :: '\n' ::
            (e ++ '\r' :: '\n' :: (arrayElemsEnc es ++ rest))) := by
      simp [arrayElemsEnc, he.1, returnBulkString, crlf]
    rw [List.length_cons, henc, decodeArrLoop]
    have hdec : decodeRESP (fuel + 1)
        ('$' :: (natDigits e.length ++ '\r' :: '\n' ::
          (e ++ '\r' :: '\n' :: (arrayElemsEnc es ++ rest))))
        = .ok (.bulk e) (arrayElemsEnc es ++ rest) := by
      rw [decodeRESP, if_neg (by decide), if_pos rfl]
      exact decodeBulkString_encode e (arrayElemsEnc es ++ rest) he.2
    rw [hdec]
    have := ih rest (acc ++ [.bulk e]) hes
    simpa using this

/-- **C1** (counterexample). The claim asserts `decode(encode(v)) == v` for
every value built from the Status/Integer/BulkString/Array variants,
explicitly including the Null BulkString and an empty BulkString inside an
Array. It is false: `DecodeRESP` has no branch for the `:` integer marker,
so an encoded Integer fails to decode; the encoded Null BulkString
`$-1\x0d\n` fails to decode (`io.ReadFull` hits end-of-stream); and an
empty string inside an Array is encoded as the null form, which again fails
to decode. -/
theorem C1_counterexample :
    DecodeRESP (encodeReply (.integer 0)) = .fail ∧
    DecodeRESP (encodeReply .nullBulk) = .fail ∧
    DecodeRESP (encodeReply (.array [[]])) = .fail :=
  ⟨rfl, rfl, rfl⟩

/-- **C1** (amended): decoding the bytes produced by the reply encoder
yields the original value for every Value built from the Status (text free
of line feeds), non-null BulkString, and Array variants whose array
elements are non-empty bulk strings; the Integer variant, the Null
BulkString, and the empty BulkString inside an Array (encoded as the null
form) do not round-trip, as the decoder cannot parse their encodings.
The fuel argument only bounds the decoder's nesting depth
(`fuel + 2` suffices for any such value). -/
theorem C1_roundtrip_amended (fuel : Nat) (v : Reply) (h : ReplyOk v) :
    decodeRESP (fuel + 2) (encodeReply v) = .ok (replyToValue v) [] := by
  have hfuel : fuel + 2 = fuel + 1 + 1 := rfl
  cases v with
  | status s =>
    have hnorm : encodeReply (.status s) = '+' :: (s ++ '\r' :: '\n' :: ([] : Bytes)) := by
      simp [encodeReply, returnSimpleString, crlf]
    rw [hnorm, hfuel, decodeRESP, if_pos rfl]
    exact decodeSimpleString_encode s [] h
  | integer i => exact h.elim
  | bulk s =>
    have hnorm : encodeReply (.bulk s)
        = '$' :: (natDigits s.length ++ '\r' :: '\n' :: (s ++ '\r' :: '\n' :: ([] : Bytes))) := by
      simp [encodeReply, returnBulkString, crlf]
    rw [hnorm, hfuel, decodeRESP, if_neg (by decide), if_pos rfl]
    exact decodeBulkString_encode s [] h
  | nullBulk => exact h.elim
  | array es =>
    obtain ⟨hlen, helems⟩ := h
    have hnorm : encodeReply (.array es)
        = '*' :: (natDigits es.length ++ '\r' :: '\n' :: arrayElemsEnc es) := by
      simp [encodeReply, returnArray, crlf]
    have h1 := readUntilCRLF_encode (natDigits es.length) (arrayElemsEnc es)
      (newline_not_mem_natDigits es.length)
    have h2 := atoi_natDigits es.length hlen
    have h3 := decodeArrLoop_encode fuel es [] [] helems
    rw [List.append_nil] at h3
    rw [hnorm, hfuel, decodeRESP, if_neg (by decide), if_neg (by decide), if_pos rfl, h1]
    simp only [h2, Int.toNat_natCast, h3, List.nil_append, replyToValue]

/-- Witness for `C1_roundtrip_amended` at the concrete reply
`*2\x0d\n$2\x0d\nab\x0d\n$1\x0d\nc\x0d\n`. -/
theorem C1_roundtrip_witness :
    ReplyOk (.array ["ab".toList, "c".toList]) ∧
    decodeRESP (0 + 2) (encodeReply (.array ["ab".toList, "c".toList]))
      = .ok (replyToValue (.array ["ab".toList, "c".toList])) [] := by
  have h : ReplyOk (.array ["ab".toList, "c".toList]) := by
    simp only [ReplyOk]
    exact ⟨by norm_num, by decide⟩
  exact ⟨h, C1_roundtrip_amended 0 _ h⟩

/-- **C2** (the code crashes where the claim promises an error). Decoding a
bulk string whose declared length is `-1` with at least one byte left in
the stream runs `readBytes := make([]byte, 1)`, fills it with `ReadFull`,
and then evaluates `readBytes[:-1]` — an out-of-range slice panic, not a
returned error. The claim's other cases do error out: `$-1\x0d\n` at
end-of-stream fails in `ReadFull`, and a too-short payload
(`$4\x0d\nabc\x0d\n`) fails in `ReadFull`; but `$-2\x0d\n` panics even at
end-of-stream (`readBytes[:-2]` on an empty buffer). -/
theorem C2_bulk_negative_length_panics :
    DecodeRESP "$-1\r\nx".toList = .panic ∧
    DecodeRESP "$-2\r\n".toList = .panic ∧
    DecodeRESP "$-1\r\n".toList = .fail ∧
    DecodeRESP "$4\r\nabc\r\n".toList = .fail :=
  ⟨rfl, rfl, rfl, rfl⟩

/-! ## Engine helper lemmas -/

/-- Complete case analysis of a `Get`: key missing, key present but
expired (purged as a side effect), or key present and live (state
untouched, any expiry entry not in the past). -/
lemma Get_cases (db : Database) (now : Int) (k : String) :
    (db.StringKeys k = none ∧ db.Get now k = ("", db)) ∨
    (∃ s te, db.StringKeys k = some s ∧ db.ExpireKeys k = some te ∧ now > te ∧
      db.Get now k =
        ("", ⟨mapSet db.StringKeys k none, mapSet db.ExpireKeys k none⟩)) ∨
    (∃ s, db.StringKeys k = some s ∧ db.Get now k = (s, db) ∧
      ∀ te, db.ExpireKeys k = some te → now ≤ te) := by
  cases hs : db.StringKeys k with
  | none =>
    left
    exact ⟨rfl, by simp [Database.Get, hs]⟩
  | some s =>
    cases he : db.ExpireKeys k with
    | none =>
      right; right
      refine ⟨s, rfl, ?_, ?_⟩
      · simp [Database.Get, Database.checkAndRemoveExpiredKey, hs, he]
      · intro te hte; simp at hte
    | some te =>
      by_cases hlt : now > te
      · right; left
        exact ⟨s, te, rfl, rfl,
          hlt, by simp [Database.Get, Database.checkAndRemoveExpiredKey, hs, he, hlt]⟩
      · right; right
        refine ⟨s, rfl, ?_, ?_⟩
        · simp [Database.Get, Database.checkAndRemoveExpiredKey, hs, he, hlt]
        · intro te' hte'
          cases hte'
          omega

/-- The observable result of a `Get` depends only on the two maps at the
probed key. -/
lemma Get_fst_congr (db1 db2 : Database) (now : Int) (k : String)
    (h1 : db1.StringKeys k = db2.StringKeys k) (h2 : db1.ExpireKeys k = db2.ExpireKeys k) :
    (db1.Get now k).1 = (db2.Get now k).1 := by
  unfold Database.Get Database.checkAndRemoveExpiredKey
  rw [h1, h2]
  cases db2.StringKeys k with
  | none => rfl
  | some s =>
    cases db2.ExpireKeys k with
    | none => rfl
    | some te => by_cases hlt : now > te <;> simp [hlt]

/-- A `Get`'s side effect (at most the purge of one already-expired key)
changes no key's observable value at the same instant. -/
lemma Get_obs_invariant (db : Database) (now : Int) (k k' : String) :
    (((db.Get now k).2).Get now k').1 = (db.Get now k').1 := by
  rcases Get_cases db now k with ⟨_, hg⟩ | ⟨s, te, hs, he, hlt, hg⟩ | ⟨s, _, hg, _⟩
  · rw [hg]
  · rw [hg]
    by_cases hk : k' = k
    · subst hk
      have hleft : ((⟨mapSet db.StringKeys k' none, mapSet db.ExpireKeys k' none⟩ :
          Database).Get now k').1 = "" := by
        simp [Database.Get, mapSet]
      have hright : (db.Get now k').1 = "" := by
        simp [Database.Get, Database.checkAndRemoveExpiredKey, hs, he, hlt]
      rw [hleft, hright]
    · exact Get_fst_congr _ _ now k' (by simp [mapSet, hk]) (by simp [mapSet, hk])
  · rw [hg]

/-! ## Claims C3, C4, C5 -/

/-- **C3** (the code returns a plain `0`, not an error-signaling outcome).
With key "ctr" holding the non-numeric value "abc", each of
`Incr`/`IncrBy`/`Decr`/`DecrBy` returns the integer `0` — the same `int`
the family can compute legitimately — and the command layer renders it as
`:0\x0d\n`, byte-for-byte the reply produced for a genuinely computed zero
(`Incr` on a key holding "-1"): no error-signaling outcome exists. -/
theorem C3_incr_non_integer_returns_zero :
    ((Database.mk (fun k => if k = "ctr" then some "abc" else none) fun _ => none).Incr
        5 "ctr").1 = 0 ∧
    ((Database.mk (fun k => if k = "ctr" then some "abc" else none) fun _ => none).IncrBy
        5 "ctr" 7).1 = 0 ∧
    ((Database.mk (fun k => if k = "ctr" then some "abc" else none) fun _ => none).Decr
        5 "ctr").1 = 0 ∧
    ((Database.mk (fun k => if k = "ctr" then some "abc" else none) fun _ => none).DecrBy
        5 "ctr" 7).1 = 0 ∧
    (incrCommand 5 ["ctr"]
        (Database.mk (fun k => if k = "ctr" then some "abc" else none) fun _ => none)).1
      = (incrCommand 5 ["ctr"]
          (Database.mk (fun k => if k = "ctr" then some "-1" else none) fun _ => none)).1 :=
  ⟨rfl, rfl, rfl, rfl, rfl⟩

/-- **C4** (counterexample). With prior state {"a" ↦ "x"} and a snapshot
holding only {"b" ↦ "y"}, the key "a" — present before, absent from the
snapshot — survives the restore with its old value: gob decodes into the
existing non-nil maps without clearing them. -/
theorem C4_counterexample :
    (Snapshot.mk (fun k => if k = "b" then some "y" else none) fun _ => none).strings "a"
        = none ∧
    ((Database.mk (fun k => if k = "a" then some "x" else none) fun _ => none).Load
        (some (Snapshot.mk (fun k => if k = "b" then some "y" else none)
          fun _ => none))).StringKeys "a" = some "x" :=
  ⟨rfl, rfl⟩

/-- **C4** (amended): `Load` merges the snapshot into the prior engine
state instead of replacing it: afterwards a key bound in the snapshot maps
to its snapshot value, and a key absent from the snapshot keeps its prior
binding — so keys present before and absent from the snapshot survive.
Both the value map and the expiry map behave this way. -/
theorem C4_load_merges (db : Database) (snap : Snapshot) (k : String) :
    (∀ v, snap.strings k = some v → (db.Load (some snap)).StringKeys k = some v) ∧
    (snap.strings k = none → (db.Load (some snap)).StringKeys k = db.StringKeys k) ∧
    (∀ t, snap.expires k = some t → (db.Load (some snap)).ExpireKeys k = some t) ∧
    (snap.expires k = none → (db.Load (some snap)).ExpireKeys k = db.ExpireKeys k) := by
  refine ⟨?_, ?_, ?_, ?_⟩
  · intro v hv; simp [Database.Load, hv]
  · intro hv; simp [Database.Load, hv]
  · intro t ht; simp [Database.Load, ht]
  · intro ht; simp [Database.Load, ht]

/-- Witness for `C4_load_merges`: the snapshot key "b" is installed and the
prior-only key "a" keeps its binding. -/
theorem C4_load_witness :
    ((Database.mk (fun k => if k = "a" then some "x" else none) fun _ => none).Load
        (some (Snapshot.mk (fun k => if k = "b" then some "y" else none)
          fun _ => none))).StringKeys "b" = some "y" ∧
    ((Database.mk (fun k => if k = "a" then some "x" else none) fun _ => none).Load
        (some (Snapshot.mk (fun k => if k = "b" then some "y" else none)
          fun _ => none))).StringKeys "a"
      = (Database.mk (fun k => if k = "a" then some "x" else none)
          fun _ => none).StringKeys "a" :=
  ⟨(C4_load_merges _ _ "b").1 "y" rfl, (C4_load_merges _ _ "a").2.1 rfl⟩

/-- **C5** (the code crashes on the claim's own example). `echoCommand`
performs no arity check at all: ECHO with zero arguments evaluates
`args[0]` on an empty slice — an index-out-of-range runtime panic
(modelled by `none`), which kills the server process, not the
wrong-number-of-arguments error reply the claim promises. With an
argument present it replies normally; a handler that does call
`checkNumberOfArguments`, such as GET, returns the error reply. -/
theorem C5_echo_no_arity_check :
    echoCommand [] = none ∧
    echoCommand ["hello"] = some (returnBulkStringS "hello") ∧
    ∀ db : Database, (getCommand 0 [] db).1 = returnWrongNumberOfArgumentsError "GET" :=
  ⟨rfl, rfl, fun _ => rfl⟩

/-! ## Claims C6, C8, C9, C10 -/

/-- **C6**: `TTL` returns `-2` whenever the key does not observably exist
(`Get` comes back empty: never set, already expired, or — per the engine's
empty-equals-absent convention — holding the empty string); `-1` when the
key exists and has no expiry entry (`GetExpire` is the zero instant); and
otherwise the remaining time `(expire - now)` truncated to seconds, which
is non-negative (a live key's expiry is not in the past), so the two
sentinels are mutually distinct and distinct from every genuine remaining
time. -/
theorem C6_ttl_sentinels (db : Database) (now : Int) (k : String) :
    ((db.Get now k).1 = "" → (db.TTL now k).1 = -2) ∧
    ((db.Get now k).1 ≠ "" → ((db.Get now k).2).GetExpire k = 0 → (db.TTL now k).1 = -1) ∧
    ((db.Get now k).1 ≠ "" → ((db.Get now k).2).GetExpire k ≠ 0 →
      (db.TTL now k).1 = Int.tdiv (((db.Get now k).2).GetExpire k - now) 1000 ∧
      0 ≤ (db.TTL now k).1) := by
  refine ⟨?_, ?_, ?_⟩
  · intro h; simp [Database.TTL, h]
  · intro h hz; simp [Database.TTL, h, hz]
  · intro h hz
    have hval : (db.TTL now k).1 =
        Int.tdiv (((db.Get now k).2).GetExpire k - now) 1000 := by
      simp [Database.TTL, h, hz]
    refine ⟨hval, ?_⟩
    rw [hval]
    have hnn : 0 ≤ ((db.Get now k).2).GetExpire k - now := by
      rcases Get_cases db now k with ⟨_, hg⟩ | ⟨s, te, hs, he, hlt, hg⟩ | ⟨s, hs, hg, hfut⟩
      · rw [hg] at h; exact absurd rfl h
      · rw [hg] at h; exact absurd rfl h
      · rw [hg] at hz ⊢
        cases he : db.ExpireKeys k with
        | none =>
          exfalso
          apply hz
          simp [Database.GetExpire, he]
        | some te =>
          have hle := hfut te he
          simp only [Database.GetExpire, he]
          omega
    exact Int.tdiv_nonneg hnn (by norm_num)

/-- Witness for `C6_ttl_sentinels` on three concrete stores: an empty one,
one holding "a" with no expiry, and one holding "a" with expiry instant
2005 queried at instant 5. -/
theorem C6_ttl_witness :
    ((Database.mk (fun _ => none) fun _ => none).TTL 5 "a").1 = -2 ∧
    ((Database.mk (fun k => if k = "a" then some "v" else none) fun _ => none).TTL
        5 "a").1 = -1 ∧
    (((Database.mk (fun k => if k = "a" then some "v" else none)
        fun k => if k = "a" then some 2005 else none).TTL 5 "a").1 =
      Int.tdiv ((((Database.mk (fun k => if k = "a" then some "v" else none)
        fun k => if k = "a" then some 2005 else none).Get 5 "a").2.GetExpire "a") - 5) 1000 ∧
      0 ≤ ((Database.mk (fun k => if k = "a" then some "v" else none)
        fun k => if k = "a" then some 2005 else none).TTL 5 "a").1) := by
  refine ⟨?_, ?_, ?_⟩
  · exact (C6_ttl_sentinels _ 5 "a").1 (by decide)
  · exact (C6_ttl_sentinels _ 5 "a").2.1 (by decide) (by decide)
  · exact (C6_ttl_sentinels _ 5 "a").2.2 (by decide) (by decide)

/-- **C8**: plain `Set` writes only the value map. A key's installed expiry
entry survives a `Set` with the same instant, the new value is stored, and
no other key's value or expiry entry changes. -/
theorem C8_set_preserves_expiry (db : Database) (k v : String) (t : Int)
    (h : db.ExpireKeys k = some t) :
    (db.Set k v).ExpireKeys k = some t ∧
    (db.Set k v).StringKeys k = some v ∧
    ∀ k', k' ≠ k →
      (db.Set k v).StringKeys k' = db.StringKeys k' ∧
      (db.Set k v).ExpireKeys k' = db.ExpireKeys k' := by
  refine ⟨h, by simp [Database.Set, mapSet], ?_⟩
  intro k' hk'
  exact ⟨by simp [Database.Set, mapSet, hk'], rfl⟩

/-- Witness for `C8_set_preserves_expiry`: key "a" with expiry 99 keeps it
across `Set "a" "y"`, and key "b" is untouched. -/
theorem C8_set_witness :
    ((Database.mk (fun k => if k = "a" then some "x" else none)
        fun k => if k = "a" then some 99 else none).Set "a" "y").ExpireKeys "a"
      = some 99 ∧
    ((Database.mk (fun k => if k = "a" then some "x" else none)
        fun k => if k = "a" then some 99 else none).Set "a" "y").StringKeys "a"
      = some "y" ∧
    ((Database.mk (fun k => if k = "a" then some "x" else none)
        fun k => if k = "a" then some 99 else none).Set "a" "y").StringKeys "b"
      = (Database.mk (fun k => if k = "a" then some "x" else none)
        fun k => if k = "a" then some 99 else none).StringKeys "b" := by
  have h := C8_set_preserves_expiry
    (Database.mk (fun k => if k = "a" then some "x" else none)
      fun k => if k = "a" then some 99 else none) "a" "y" 99 rfl
  exact ⟨h.1, h.2.1, (h.2.2 "b" (by decide)).1⟩

/-- **C9**: when the snapshot file cannot be opened or decoded
(`file = none`), `Load` leaves both in-memory maps exactly as they were,
and the LOAD command nevertheless replies `+OK`; `Save` never mutates the
in-memory state and SAVE replies `+OK` regardless of the file write's
outcome. -/
theorem C9_persistence_failure_masked (db : Database) (args : List String)
    (h : args ≠ []) :
    loadCommand args none db = (returnSimpleStringS "OK", db) ∧
    saveCommand args db = (returnSimpleStringS "OK", db) := by
  constructor
  · have hchk : checkNumberOfArguments args 1 = true := by
      have hpos : 0 < args.length := List.length_pos.mpr h
      simp [checkNumberOfArguments]
      omega
    simp [loadCommand, hchk, Database.Load]
  · rfl

/-- Witness for `C9_persistence_failure_masked` on an empty store and a
failing file. -/
theorem C9_persistence_witness :
    loadCommand ["dump.db"] none (Database.mk (fun _ => none) fun _ => none)
      = (returnSimpleStringS "OK", Database.mk (fun _ => none) fun _ => none) ∧
    saveCommand ["dump.db"] (Database.mk (fun _ => none) fun _ => none)
      = (returnSimpleStringS "OK", Database.mk (fun _ => none) fun _ => none) :=
  C9_persistence_failure_masked _ _ (by decide)

/-- **C10**: after `Set k ""`, the key is indistinguishable from an absent
key at the public interface: `Get` returns the empty (absent) result, the
GET command replies the null bulk string, `Exists` counts it as zero,
`Del` reports nothing deleted, and `TTL` answers the absent sentinel `-2`;
and (when the key has no expiry entry that lazy expiration could trigger)
`Del` leaves the stored empty value in place. -/
theorem C10_empty_value_looks_absent (db : Database) (now : Int) (k : String) :
    ((db.Set k "").Get now k).1 = "" ∧
    (getCommand now [k] (db.Set k "")).1 = returnNullBulkStringS ∧
    ((db.Set k "").Exists now [k]).1 = 0 ∧
    ((db.Set k "").Del now [k]).1 = 0 ∧
    ((db.Set k "").TTL now k).1 = -2 ∧
    (db.ExpireKeys k = none →
      ((db.Set k "").Del now [k]).2.StringKeys k = some "") := by
  have hget : ((db.Set k "").Get now k).1 = "" := by
    rcases Get_cases (db.Set k "") now k with ⟨hs, hg⟩ | ⟨s, te, hs, he, hlt, hg⟩ |
      ⟨s, hs, hg, _⟩
    · rw [hg]
    · rw [hg]
    · rw [hg]
      have hempty : (db.Set k "").StringKeys k = some "" := by simp [Database.Set, mapSet]
      rw [hempty] at hs
      cases hs
      rfl
  refine ⟨hget, ?_, ?_, ?_, ?_, ?_⟩
  · simp [getCommand, checkNumberOfArguments, hget]
  · simp [Database.Exists, hget]
  · simp [Database.Del, hget]
  · simp [Database.TTL, hget]
  · intro hexp
    have hsnd : ((db.Set k "").Get now k).2 = db.Set k "" := by
      simp [Database.Get, Database.checkAndRemoveExpiredKey, Database.Set, mapSet, hexp]
    have hdel : ((db.Set k "").Del now [k]).2 = db.Set k "" := by
      simp [Database.Del, hget, hsnd]
    rw [hdel]
    simp [Database.Set, mapSet]

/-- Witness for `C10_empty_value_looks_absent` on an initially empty store
at key "a". -/
theorem C10_empty_value_witness :
    (Database.mk (fun _ => none) (fun _ => none)).ExpireKeys "a" = none ∧
    (((Database.mk (fun _ => none) fun _ => none).Set "a" "").Del 0 ["a"]).2.StringKeys "a"
      = some "" ∧
    (((Database.mk (fun _ => none) fun _ => none).Set "a" "").TTL 0 "a").1 = -2 :=
  ⟨rfl,
    (C10_empty_value_looks_absent (Database.mk (fun _ => none) fun _ => none)
      0 "a").2.2.2.2.2 rfl,
    (C10_empty_value_looks_absent (Database.mk (fun _ => none) fun _ => none)
      0 "a").2.2.2.2.1⟩

/-! ## Claim C7 -/

lemma msetnxCheck_found (pairs : List (String × String)) (db : Database) (now : Int)
    (h : ∃ p ∈ pairs, (db.Get now p.1).1 ≠ "") :
    (msetnxCheck db now pairs).1 = true ∧
    ∀ k, (((msetnxCheck db now pairs).2).Get now k).1 = (db.Get now k).1 := by
  induction pairs generalizing db with
  | nil => simp at h
  | cons q rest ih =>
    obtain ⟨key, val⟩ := q
    by_cases hk : (db.Get now key).1 = ""
    · have hrest : ∃ p ∈ rest, ((((db.Get now key).2)).Get now p.1).1 ≠ "" := by
        obtain ⟨p, hp, hpne⟩ := h
        rcases List.mem_cons.mp hp with hp1 | hp1
        · rw [hp1] at hpne
          exact absurd hk hpne
        · exact ⟨p, hp1, by rw [Get_obs_invariant]; exact hpne⟩
      have hrec := ih ((db.Get now key).2) hrest
      have hstep : msetnxCheck db now ((key, val) :: rest)
          = msetnxCheck ((db.Get now key).2) now rest := by
        simp [msetnxCheck, hk]
      rw [hstep]
      exact ⟨hrec.1, fun k => by rw [hrec.2 k, Get_obs_invariant]⟩
    · have hstep : msetnxCheck db now ((key, val) :: rest)
          = (true, (db.Get now key).2) := by
        simp [msetnxCheck, hk]
      rw [hstep]
      exact ⟨rfl, fun k => Get_obs_invariant db now key k⟩

lemma msetnxCheck_not_found (pairs : List (String × String)) (db : Database) (now : Int)
    (h : ∀ p ∈ pairs, (db.Get now p.1).1 = "") :
    (msetnxCheck db now pairs).1 = false ∧
    ∀ k, (((msetnxCheck db now pairs).2).Get now k).1 = (db.Get now k).1 := by
  induction pairs generalizing db with
  | nil => exact ⟨rfl, fun _ => rfl⟩
  | cons q rest ih =>
    obtain ⟨key, val⟩ := q
    have hk : (db.Get now key).1 = "" := h (key, val) (List.mem_cons_self _ _)
    have hrest : ∀ p ∈ rest, ((((db.Get now key).2)).Get now p.1).1 = "" := by
      intro p hp
      rw [Get_obs_invariant]
      exact h p (List.mem_cons_of_mem _ hp)
    have hrec := ih ((db.Get now key).2) hrest
    have hstep : msetnxCheck db now ((key, val) :: rest)
        = msetnxCheck ((db.Get now key).2) now rest := by
      simp [msetnxCheck, hk]
    rw [hstep]
    exact ⟨hrec.1, fun k => by rw [hrec.2 k, Get_obs_invariant]⟩

lemma msetnxInstall_not_mem (pairs : List (String × String)) (db : Database) (k : String)
    (h : k ∉ pairs.map Prod.fst) :
    (msetnxInstall db pairs).StringKeys k = db.StringKeys k := by
  induction pairs generalizing db with
  | nil => rfl
  | cons q rest ih =>
    obtain ⟨key, val⟩ := q
    simp only [List.map_cons, List.mem_cons] at h
    push_neg at h
    rw [msetnxInstall, ih (db.Set key val) h.2]
    simp [Database.Set, mapSet, h.1]

lemma msetnxInstall_mem (pairs : List (String × String)) (db : Database)
    (hnd : (pairs.map Prod.fst).Nodup) :
    ∀ p ∈ pairs, (msetnxInstall db pairs).StringKeys p.1 = some p.2 := by
  induction pairs generalizing db with
  | nil => intro p hp; simp at hp
  | cons q rest ih =>
    obtain ⟨key, val⟩ := q
    simp only [List.map_cons, List.nodup_cons] at hnd
    intro p hp
    rcases List.mem_cons.mp hp with hp1 | hp1
    · rw [hp1, msetnxInstall, msetnxInstall_not_mem rest (db.Set key val) key hnd.1]
      simp [Database.Set, mapSet]
    · rw [msetnxInstall]
      exact ih (db.Set key val) hnd.2 p hp1

/-- **C7**: `MSetNX` on a pair list with at least one listed key currently
existing (expiry-aware: its `Get` is non-empty) returns false and installs
none of the pairs — every key's observable value is unchanged (the only
physical writes are the lazy purges of already-expired entries done by the
probing `Get`s, which change no observable value); with no listed key
existing it returns true and installs every pair (stated for pair lists
with distinct keys; with duplicates the last write wins). -/
theorem C7_msetnx_guard (db : Database) (now : Int) (pairs : List (String × String)) :
    ((∃ p ∈ pairs, (db.Get now p.1).1 ≠ "") →
      (db.MSetNX now pairs).1 = false ∧
      ∀ k, (((db.MSetNX now pairs).2).Get now k).1 = (db.Get now k).1) ∧
    ((∀ p ∈ pairs, (db.Get now p.1).1 = "") →
      (db.MSetNX now pairs).1 = true ∧
      ((pairs.map Prod.fst).Nodup →
        ∀ p ∈ pairs, ((db.MSetNX now pairs).2).StringKeys p.1 = some p.2)) := by
  constructor
  · intro h
    have hc := msetnxCheck_found pairs db now h
    constructor
    · simp [Database.MSetNX, hc.1]
    · intro k
      have hsnd : (db.MSetNX now pairs).2 = (msetnxCheck db now pairs).2 := by
        simp [Database.MSetNX, hc.1]
      rw [hsnd, hc.2 k]
  · intro h
    have hc := msetnxCheck_not_found pairs db now h
    constructor
    · simp [Database.MSetNX, hc.1]
    · intro hnd p hp
      have hsnd : (db.MSetNX now pairs).2
          = msetnxInstall ((msetnxCheck db now pairs).2) pairs := by
        simp [Database.MSetNX, hc.1]
      rw [hsnd]
      exact msetnxInstall_mem pairs _ hnd p hp

/-- Witness for `C7_msetnx_guard`: with "a" already bound, the pair list
[("a","1"), ("b","2")] installs nothing and yields false; on an empty
store it yields true and installs both pairs. -/
theorem C7_msetnx_witness :
    ((Database.mk (fun k => if k = "a" then some "x" else none) fun _ => none).MSetNX 0
        [("a", "1"), ("b", "2")]).1 = false ∧
    ((Database.mk (fun _ => none) fun _ => none).MSetNX 0
        [("a", "1"), ("b", "2")]).1 = true ∧
    (((Database.mk (fun _ => none) fun _ => none).MSetNX 0
        [("a", "1"), ("b", "2")]).2).StringKeys "b" = some "2" := by
  refine ⟨?_, ?_, ?_⟩
  · exact ((C7_msetnx_guard
      (Database.mk (fun k => if k = "a" then some "x" else none) fun _ => none) 0
      [("a", "1"), ("b", "2")]).1 ⟨("a", "1"), by decide, by decide⟩).1
  · exact ((C7_msetnx_guard (Database.mk (fun _ => none) fun _ => none) 0
      [("a", "1"), ("b", "2")]).2 (by decide)).1
  · exact ((C7_msetnx_guard (Database.mk (fun _ => none) fun _ => none) 0
      [("a", "1"), ("b", "2")]).2 (by decide)).2 (by decide) ("b", "2") (by decide)

/-! ## Fidelity checks

The embedded decoder reproduces every case of the repository's Go test
suite for the protocol codec (`redis_protocol_test.go`). -/

example : DecodeRESP "+foo\r\n".toList = .ok (.simple "foo".toList) [] := rfl
example : DecodeRESP "$4\r\nabcd\r\n".toList = .ok (.bulk "abcd".toList) [] := rfl
example : DecodeRESP "*2\r\n$3\r\nGET\r\n$4\r\nthis\r\n".toList
    = .ok (.arr [.bulk "GET".toList, .bulk "this".toList]) [] := rfl
example : DecodeRESP "?invalid\r\n".toList = .fail := rfl
example : DecodeRESP "$4\r\nabc\r\n".toList = .fail := rfl
example : DecodeRESP "*2\r\n$3\r\nGET\r\n".toList = .fail := rfl

end RedisWhistle
